import Mathlib

/-!
Verification of the KilnMaster schedule-duration and calibration core.

Shallow embedding notes:
* JavaScript numbers are modelled as rationals (`ℚ`); `Math.round` is
  `jsRound x = ⌊x + 1/2⌋` (which agrees with JS `Math.round` on all inputs,
  including negative halves), and `Number(x.toFixed(3))` on the positive
  values produced here is `round3 x = jsRound (x * 1000) / 1000`.
* Optional TS fields (`rate?`, `holdTime?`, `theoreticalDuration?`) become
  `Option ℚ`; `x ?? 0` becomes `Option.getD x 0`.  Division by zero is the
  `ℚ` convention `x / 0 = 0`; theorems about code paths where JS would
  produce `Infinity`/`NaN` carry explicit nonzero-rate hypotheses.
* `id` fields (produced by `crypto.randomUUID()`) and other fields the
  functions under study never read are omitted from the structures.
* Where a property depends on the JS special values the `ℚ` convention hides —
  the calibration ratio path, where `0/0` is `NaN`, `x/0` is `±Infinity`, and
  `NaN` fails every comparison so the outlier filter keeps it — a `JSNum`
  model (finite value, `±Infinity`, or `NaN`) embeds those operations exactly.
-/

namespace KilnMaster

/-- JS `Math.round`: round half towards positive infinity. -/
def jsRound (x : ℚ) : ℤ := ⌊x + 1/2⌋

/-- `Number(x.toFixed(3))` for the positive values arising here:
round to 3 decimal places, half away from zero. -/
def round3 (x : ℚ) : ℚ := (jsRound (x * 1000) : ℚ) / 1000

/-- Segment kind: the TS union `'ramp' | 'hold'` (src/unnamed/part_000 `FiringSegment.type`). -/
inductive SegType where
  | ramp : SegType
  | hold : SegType
deriving DecidableEq, Repr

/-- `FiringSegment` from src (types module): `rate?: number`, `targetTemp: number`,
`holdTime?: number`.  The `id: string` field is omitted (never read by the core). -/
structure FiringSegment where
  type : SegType
  rate : Option ℚ := none
  targetTemp : ℚ
  holdTime : Option ℚ := none
deriving DecidableEq, Repr

/-- One step of `calculateTheoreticalDuration`'s `forEach` body: state is the pair
of the two mutable variables `(totalMinutes, currentTemp)`.
Source: `if rate !== 0 { totalMinutes += tempDiff / Math.abs(rate) * 60 }; currentTemp = target`
for ramps (`rate = seg.rate ?? 0`), `totalMinutes += seg.holdTime ?? 0` for holds. -/
def durStep (st : ℚ × ℚ) (seg : FiringSegment) : ℚ × ℚ :=
  match seg.type with
  | SegType.ramp =>
      let rate := seg.rate.getD 0
      let target := seg.targetTemp
      (if rate ≠ 0 then st.1 + |target - st.2| / |rate| * 60 else st.1, target)
  | SegType.hold => (st.1 + seg.holdTime.getD 0, st.2)

/-- The exact (pre-rounding) value of `totalMinutes` at the end of
`calculateTheoreticalDuration`'s loop, starting from `currentTemp = 25`. -/
def exactTheoreticalMinutes (segments : List FiringSegment) : ℚ :=
  (segments.foldl durStep (0, 25)).1

/-- `calculateTheoreticalDuration` (src/unnamed/part_004): loop over the segments
with mutable `totalMinutes`/`currentTemp`, then `Math.round(totalMinutes)`. -/
def calculateTheoreticalDuration (segments : List FiringSegment) : ℤ :=
  jsRound (exactTheoreticalMinutes segments)

/-- Claim-side recursive formulation of the duration sum: contribution of each
segment given its start temperature, a ramp updating the running temperature
to its target even when its rate is zero. -/
def claimDurationSum (segments : List FiringSegment) (currentTemp : ℚ) : ℚ :=
  match segments with
  | [] => 0
  | seg :: rest =>
      match seg.type with
      | SegType.ramp =>
          let rate := seg.rate.getD 0
          (if rate ≠ 0 then |seg.targetTemp - currentTemp| / |rate| * 60 else 0)
            + claimDurationSum rest seg.targetTemp
      | SegType.hold => seg.holdTime.getD 0 + claimDurationSum rest currentTemp

theorem foldl_durStep_eq (segments : List FiringSegment) :
    ∀ tot cur : ℚ, (segments.foldl durStep (tot, cur)).1 = tot + claimDurationSum segments cur := by
  induction segments with
  | nil => intro tot cur; simp [claimDurationSum]
  | cons seg rest ih =>
      intro tot cur
      cases htype : seg.type with
      | ramp =>
          by_cases hr : seg.rate.getD 0 = 0
          · simp [durStep, htype, hr, claimDurationSum, ih]
          · simp [durStep, htype, hr, claimDurationSum, ih]
            ring
      | hold =>
          simp [durStep, htype, claimDurationSum, ih]
          ring

/-- Scenario A segment list:
`[Ramp(rate=100, target=600), Hold(target=600, hold=30), Ramp(rate=200, target=25)]`. -/
def scenarioASegments : List FiringSegment :=
  [ { type := SegType.ramp, rate := some 100, targetTemp := 600 },
    { type := SegType.hold, targetTemp := 600, holdTime := some 30 },
    { type := SegType.ramp, rate := some 200, targetTemp := 25 } ]

/-- C1: `calculateTheoreticalDuration` is, for every segment list, the
round-half-up to a whole minute of the final sum (rounded once, at the end) of
`|targetTemp - currentTemp| / |rate| * 60` for each ramp with nonzero rate and
`holdTime` for each hold, starting from `currentTemp = 25`, a ramp updating
`currentTemp` to its target even when its rate is zero; on Scenario A's
segments the result is 548 minutes (345 + 30 + 172.5 = 547.5, rounded up). -/
theorem C1_theoretical_duration_spec :
    (∀ segments : List FiringSegment,
        calculateTheoreticalDuration segments = jsRound (claimDurationSum segments 25))
      ∧ calculateTheoreticalDuration scenarioASegments = 548 := by
  constructor
  · intro segments
    unfold calculateTheoreticalDuration exactTheoreticalMinutes
    rw [foldl_durStep_eq]
    simp
  · show jsRound ((scenarioASegments.foldl durStep (0, 25)).1) = 548
    norm_num [scenarioASegments, durStep, jsRound]

/-! ## Schedule polyline (`calculateSchedulePoints`) -/

/-- A plot vertex `{ time, temp }`. -/
structure SchedulePoint where
  time : ℚ
  temp : ℚ
deriving DecidableEq, Repr

/-- Loop body of `calculateSchedulePoints` (src/unnamed/part_004): holds advance
time by `seg.holdTime || 0` and push the current temperature; ramps are
processed only when `seg.rate && seg.rate !== 0` (a missing or zero rate skips
the segment entirely, leaving both `currentTemp` and `currentTime` unchanged). -/
def calculateSchedulePointsAux (segments : List FiringSegment) (currentTemp currentTime : ℚ) :
    List SchedulePoint :=
  match segments with
  | [] => []
  | seg :: rest =>
      match seg.type with
      | SegType.hold =>
          let t := currentTime + seg.holdTime.getD 0
          ⟨t, currentTemp⟩ :: calculateSchedulePointsAux rest currentTemp t
      | SegType.ramp =>
          let r := seg.rate.getD 0
          if r ≠ 0 then
            let t := currentTime + |seg.targetTemp - currentTemp| / |r| * 60
            ⟨t, seg.targetTemp⟩ :: calculateSchedulePointsAux rest seg.targetTemp t
          else calculateSchedulePointsAux rest currentTemp currentTime

/-- `calculateSchedulePoints` (src/unnamed/part_004): starts from the vertex
`(0, 25)` and walks the segments. -/
def calculateSchedulePoints (segments : List FiringSegment) : List SchedulePoint :=
  ⟨0, 25⟩ :: calculateSchedulePointsAux segments 25 0

/-- Modelled from the spec (§4.1 `schedulePoints`), as the comparator for the
refinement claim: one vertex per segment boundary, every segment advancing time
by the same per-segment duration formula `theoreticalDuration` uses (a zero-rate
ramp contributes zero time but still moves the temperature to its target). -/
def schedulePointsSpecAux (segments : List FiringSegment) (currentTemp currentTime : ℚ) :
    List SchedulePoint :=
  match segments with
  | [] => []
  | seg :: rest =>
      match seg.type with
      | SegType.hold =>
          let t := currentTime + seg.holdTime.getD 0
          ⟨t, currentTemp⟩ :: schedulePointsSpecAux rest currentTemp t
      | SegType.ramp =>
          let r := seg.rate.getD 0
          let t := currentTime + (if r ≠ 0 then |seg.targetTemp - currentTemp| / |r| * 60 else 0)
          ⟨t, seg.targetTemp⟩ :: schedulePointsSpecAux rest seg.targetTemp t

/-- Modelled from the spec: the full polyline, starting at `(0, 25)`. -/
def schedulePointsSpec (segments : List FiringSegment) : List SchedulePoint :=
  ⟨0, 25⟩ :: schedulePointsSpecAux segments 25 0

/-- Terminal value of the running `currentTemp` after all segments (only ramps
update it), starting from `currentTemp`. -/
def finalTempFrom (segments : List FiringSegment) (currentTemp : ℚ) : ℚ :=
  match segments with
  | [] => currentTemp
  | seg :: rest =>
      finalTempFrom rest (if seg.type = SegType.ramp then seg.targetTemp else currentTemp)

theorem foldl_durStep_snd (segments : List FiringSegment) :
    ∀ tot cur : ℚ, (segments.foldl durStep (tot, cur)).2 = finalTempFrom segments cur := by
  induction segments with
  | nil => intro tot cur; simp [finalTempFrom]
  | cons seg rest ih =>
      intro tot cur
      cases htype : seg.type with
      | ramp => simp [durStep, htype, finalTempFrom, ih]
      | hold => simp [durStep, htype, finalTempFrom, ih]

theorem specAux_getLast (segments : List FiringSegment) :
    ∀ cur t : ℚ,
      (SchedulePoint.mk t cur :: schedulePointsSpecAux segments cur t).getLast? =
        some ⟨t + claimDurationSum segments cur, finalTempFrom segments cur⟩ := by
  induction segments with
  | nil => intro cur t; simp [schedulePointsSpecAux, claimDurationSum, finalTempFrom]
  | cons seg rest ih =>
      intro cur t
      cases htype : seg.type with
      | hold =>
          rw [show schedulePointsSpecAux (seg :: rest) cur t =
                SchedulePoint.mk (t + seg.holdTime.getD 0) cur ::
                  schedulePointsSpecAux rest cur (t + seg.holdTime.getD 0) by
              simp [schedulePointsSpecAux, htype]]
          rw [List.getLast?_cons_cons, ih]
          simp [claimDurationSum, htype, finalTempFrom]
          ring
      | ramp =>
          rw [show schedulePointsSpecAux (seg :: rest) cur t =
                SchedulePoint.mk
                    (t + (if seg.rate.getD 0 ≠ 0 then
                        |seg.targetTemp - cur| / |seg.rate.getD 0| * 60 else 0))
                    seg.targetTemp ::
                  schedulePointsSpecAux rest seg.targetTemp
                    (t + (if seg.rate.getD 0 ≠ 0 then
                        |seg.targetTemp - cur| / |seg.rate.getD 0| * 60 else 0)) by
              simp [schedulePointsSpecAux, htype]]
          rw [List.getLast?_cons_cons, ih]
          simp [claimDurationSum, htype, finalTempFrom]
          ring

theorem pointsAux_eq_specAux (segments : List FiringSegment)
    (h : ∀ seg ∈ segments, seg.type = SegType.ramp → seg.rate.getD 0 ≠ 0) :
    ∀ cur t : ℚ,
      calculateSchedulePointsAux segments cur t = schedulePointsSpecAux segments cur t := by
  induction segments with
  | nil => intro cur t; rfl
  | cons seg rest ih =>
      intro cur t
      have hrest : ∀ s ∈ rest, s.type = SegType.ramp → s.rate.getD 0 ≠ 0 := by
        intro s hs; exact h s (List.mem_cons_of_mem _ hs)
      cases htype : seg.type with
      | hold =>
          simp [calculateSchedulePointsAux, schedulePointsSpecAux, htype, ih hrest]
      | ramp =>
          have hr : seg.rate.getD 0 ≠ 0 := h seg (List.mem_cons_self _ _) htype
          simp [calculateSchedulePointsAux, schedulePointsSpecAux, htype, hr, ih hrest]

/-- C8 counterexample: on `[Ramp(rate=0, target=600), Ramp(rate=100, target=625)]`
the final vertex of `calculateSchedulePoints` sits at time 360 (the zero-rate
ramp is skipped entirely, so the second ramp climbs from 25°C), while the exact
total that `calculateTheoreticalDuration` rounds is 15 minutes (the zero-rate
ramp teleports `currentTemp` to 600°C there); the polyline also differs from the
spec-side polyline built with `theoreticalDuration`'s per-segment formula. -/
theorem C8_counterexample_rate_zero_ramp :
    (calculateSchedulePoints
        [ { type := SegType.ramp, rate := some 0, targetTemp := 600 },
          { type := SegType.ramp, rate := some 100, targetTemp := 625 } ]).getLast? =
        some ⟨360, 625⟩
      ∧ exactTheoreticalMinutes
          [ { type := SegType.ramp, rate := some 0, targetTemp := 600 },
            { type := SegType.ramp, rate := some 100, targetTemp := 625 } ] = 15
      ∧ (360 : ℚ) ≠ 15
      ∧ calculateSchedulePoints
          [ { type := SegType.ramp, rate := some 0, targetTemp := 600 },
            { type := SegType.ramp, rate := some 100, targetTemp := 625 } ] ≠
        schedulePointsSpec
          [ { type := SegType.ramp, rate := some 0, targetTemp := 600 },
            { type := SegType.ramp, rate := some 100, targetTemp := 625 } ] := by
  refine ⟨?_, ?_, by norm_num, ?_⟩
  · norm_num [calculateSchedulePoints, calculateSchedulePointsAux]
  · norm_num [exactTheoreticalMinutes, durStep]
  · intro hcontra
    have := congrArg List.length hcontra
    norm_num [calculateSchedulePoints, calculateSchedulePointsAux,
      schedulePointsSpec, schedulePointsSpecAux] at this

/-- C8 (amended): when every ramp has a present, nonzero rate,
`calculateSchedulePoints` coincides with the spec-side polyline built from
`theoreticalDuration`'s per-segment duration formula and temperature evolution,
and its final vertex is `(exactTheoreticalMinutes segments, terminal currentTemp)`
— the unrounded total that `calculateTheoreticalDuration` rounds.  (Without that
hypothesis the two functions diverge: `calculateSchedulePoints` skips a
zero-rate ramp entirely while `calculateTheoreticalDuration` still moves
`currentTemp` to its target.) -/
theorem C8_schedule_points_consistent (segments : List FiringSegment)
    (h : ∀ seg ∈ segments, seg.type = SegType.ramp → seg.rate.getD 0 ≠ 0) :
    calculateSchedulePoints segments = schedulePointsSpec segments
      ∧ (calculateSchedulePoints segments).getLast? =
          some ⟨exactTheoreticalMinutes segments, finalTempFrom segments 25⟩ := by
  have heq : calculateSchedulePoints segments = schedulePointsSpec segments := by
    unfold calculateSchedulePoints schedulePointsSpec
    rw [pointsAux_eq_specAux segments h]
  refine ⟨heq, ?_⟩
  rw [heq]
  unfold schedulePointsSpec
  rw [specAux_getLast]
  unfold exactTheoreticalMinutes
  rw [foldl_durStep_eq]

/-- C8 witness: the amended consistency theorem applied to Scenario A's
segments (all ramps have nonzero rates). -/
theorem C8_schedule_points_consistent_witness :
    calculateSchedulePoints scenarioASegments = schedulePointsSpec scenarioASegments
      ∧ (calculateSchedulePoints scenarioASegments).getLast? =
          some ⟨exactTheoreticalMinutes scenarioASegments, finalTempFrom scenarioASegments 25⟩ :=
  C8_schedule_points_consistent scenarioASegments (by
    intro seg hseg htype
    fin_cases hseg <;> simp_all [scenarioASegments])

/-! ## Temperature at elapsed time (`getCurrentTemp` in ActiveFiring.tsx,
identical arithmetic to `calculateTemperature` in GAS.md) -/

/-- The loop's per-segment duration: `seg.type === 'hold' ? seg.holdTime! :
(Math.abs(seg.targetTemp - currentT) / seg.rate!) * 60`.  Note the source
divides by `seg.rate` itself, not its absolute value; the non-null assertions
`holdTime!` / `rate!` are modelled by `Option.getD _ 0`. -/
def segDurationAt (seg : FiringSegment) (currentT : ℚ) : ℚ :=
  match seg.type with
  | SegType.hold => seg.holdTime.getD 0
  | SegType.ramp => |seg.targetTemp - currentT| / seg.rate.getD 0 * 60

/-- The `for (const seg of schedule.segments)` loop of `getCurrentTemp`:
if the segment's window contains `elapsedMinutes`, a hold returns its target
and a ramp returns the rounded linear interpolation; otherwise ramps update
`currentT` and the accumulator advances.  Falls through to `currentT`. -/
def getCurrentTempAux (segments : List FiringSegment) (currentT acc elapsedMinutes : ℚ) : ℚ :=
  match segments with
  | [] => currentT
  | seg :: rest =>
      let segDuration := segDurationAt seg currentT
      if acc + segDuration > elapsedMinutes then
        match seg.type with
        | SegType.hold => seg.targetTemp
        | SegType.ramp =>
            (jsRound (currentT + (seg.targetTemp - currentT) * ((elapsedMinutes - acc) / segDuration)) : ℚ)
      else
        getCurrentTempAux rest
          (if seg.type = SegType.ramp then seg.targetTemp else currentT)
          (acc + segDuration) elapsedMinutes

/-- `getCurrentTemp` (src/components/ActiveFiring.tsx): converts `elapsedMs`
to minutes and walks the timeline from `currentT = 25`, `timeAccumulator = 0`. -/
def getCurrentTemp (segments : List FiringSegment) (elapsedMs : ℚ) : ℚ :=
  getCurrentTempAux segments 25 0 (elapsedMs / 60000)

theorem claimDurationSum_nonneg (segments : List FiringSegment)
    (h : ∀ seg ∈ segments, seg.type = SegType.hold → 0 ≤ seg.holdTime.getD 0) :
    ∀ cur : ℚ, 0 ≤ claimDurationSum segments cur := by
  induction segments with
  | nil => intro cur; simp [claimDurationSum]
  | cons seg rest ih =>
      intro cur
      have hrest : ∀ s ∈ rest, s.type = SegType.hold → 0 ≤ s.holdTime.getD 0 := by
        intro s hs; exact h s (List.mem_cons_of_mem _ hs)
      cases htype : seg.type with
      | ramp =>
          simp only [claimDurationSum, htype]
          refine add_nonneg ?_ (ih hrest seg.targetTemp)
          split <;> positivity
      | hold =>
          have h0 : 0 ≤ seg.holdTime.getD 0 := h seg (List.mem_cons_self _ _) htype
          simp only [claimDurationSum, htype]
          exact add_nonneg h0 (ih hrest cur)

theorem getCurrentTempAux_final (segments : List FiringSegment)
    (h : ∀ seg ∈ segments, (seg.type = SegType.hold → 0 ≤ seg.holdTime.getD 0)
        ∧ (seg.type = SegType.ramp → 0 < seg.rate.getD 0)) :
    ∀ cur acc e : ℚ, acc + claimDurationSum segments cur ≤ e →
      getCurrentTempAux segments cur acc e = finalTempFrom segments cur := by
  induction segments with
  | nil => intro cur acc e _; simp [getCurrentTempAux, finalTempFrom]
  | cons seg rest ih =>
      intro cur acc e he
      have hrest : ∀ s ∈ rest, (s.type = SegType.hold → 0 ≤ s.holdTime.getD 0)
          ∧ (s.type = SegType.ramp → 0 < s.rate.getD 0) := by
        intro s hs; exact h s (List.mem_cons_of_mem _ hs)
      have hrestHold : ∀ s ∈ rest, s.type = SegType.hold → 0 ≤ s.holdTime.getD 0 := by
        intro s hs; exact (hrest s hs).1
      cases htype : seg.type with
      | hold =>
          have hdur : segDurationAt seg cur = seg.holdTime.getD 0 := by
            simp [segDurationAt, htype]
          have hsum : claimDurationSum (seg :: rest) cur =
              seg.holdTime.getD 0 + claimDurationSum rest cur := by
            simp [claimDurationSum, htype]
          have hnn := claimDurationSum_nonneg rest hrestHold cur
          have hnotin : ¬ acc + segDurationAt seg cur > e := by
            rw [hdur]; rw [hsum] at he; linarith
          have hif : (if seg.type = SegType.ramp then seg.targetTemp else cur) = cur := by
            simp [htype]
          rw [getCurrentTempAux, if_neg hnotin, hif]
          rw [ih hrest cur (acc + segDurationAt seg cur) e (by rw [hdur]; rw [hsum] at he; linarith)]
          simp [finalTempFrom, htype]
      | ramp =>
          have hr : 0 < seg.rate.getD 0 := (h seg (List.mem_cons_self _ _)).2 htype
          have hdur : segDurationAt seg cur =
              |seg.targetTemp - cur| / |seg.rate.getD 0| * 60 := by
            simp [segDurationAt, htype, abs_of_pos hr]
          have hsum : claimDurationSum (seg :: rest) cur =
              |seg.targetTemp - cur| / |seg.rate.getD 0| * 60
                + claimDurationSum rest seg.targetTemp := by
            simp [claimDurationSum, htype, ne_of_gt hr]
          have hnn := claimDurationSum_nonneg rest hrestHold seg.targetTemp
          have hnotin : ¬ acc + segDurationAt seg cur > e := by
            rw [hdur]; rw [hsum] at he; linarith
          have hif : (if seg.type = SegType.ramp then seg.targetTemp else cur) =
              seg.targetTemp := by simp [htype]
          rw [getCurrentTempAux, if_neg hnotin, hif]
          rw [ih hrest seg.targetTemp (acc + segDurationAt seg cur) e
            (by rw [hdur]; rw [hsum] at he; linarith)]
          simp [finalTempFrom, htype]

/-- C4 counterexample: (i) on the non-empty schedule `[Hold(target=600, hold=30)]`
the temperature at elapsed time 0 is 600°C, not 25°C (a first hold segment's
window starts at 0 and a hold reports its target); (ii) on
`[Ramp(rate=150, target=276)]` the rounded theoretical duration is 100 minutes
(exact 100.4), yet at elapsed 100 minutes the function is still interpolating
inside the ramp and returns 275°C, not the last segment's 276°C target. -/
theorem C4_counterexample_boundaries :
    getCurrentTemp [ { type := SegType.hold, targetTemp := 600, holdTime := some 30 } ] 0 = 600
      ∧ (600 : ℚ) ≠ 25
      ∧ calculateTheoreticalDuration
          [ { type := SegType.ramp, rate := some 150, targetTemp := 276 } ] = 100
      ∧ getCurrentTemp
          [ { type := SegType.ramp, rate := some 150, targetTemp := 276 } ] (100 * 60000) = 275
      ∧ finalTempFrom [ { type := SegType.ramp, rate := some 150, targetTemp := 276 } ] 25 = 276
      ∧ (275 : ℚ) ≠ 276 := by
  refine ⟨?_, by norm_num, ?_, ?_, by norm_num [finalTempFrom], by norm_num⟩
  · norm_num [getCurrentTemp, getCurrentTempAux, segDurationAt]
  · norm_num [calculateTheoreticalDuration, exactTheoreticalMinutes, durStep, jsRound]
  · norm_num [getCurrentTemp, getCurrentTempAux, segDurationAt, jsRound]

/-- C4 (amended): for a schedule whose holds have nonnegative hold times and
whose ramps have positive rates, (i) if the first segment is a ramp whose target
differs from 25°C then the temperature at elapsed time 0 is 25°C (a schedule
starting with a hold instead reports the hold's target), and (ii) for every
elapsed time at or beyond the exact (unrounded) total duration the function
returns the terminal `currentTemp` — the target of the last ramp (holds never
update it), not necessarily the last segment's target; because
`calculateTheoreticalDuration` rounds, elapsed = the rounded duration can still
fall inside the final segment. -/
theorem C4_temperature_boundaries (segments : List FiringSegment)
    (h : ∀ seg ∈ segments, (seg.type = SegType.hold → 0 ≤ seg.holdTime.getD 0)
        ∧ (seg.type = SegType.ramp → 0 < seg.rate.getD 0)) :
    (∀ seg rest, segments = seg :: rest → seg.type = SegType.ramp →
        seg.targetTemp ≠ 25 → getCurrentTemp segments 0 = 25)
      ∧ (∀ elapsedMs : ℚ, exactTheoreticalMinutes segments ≤ elapsedMs / 60000 →
          getCurrentTemp segments elapsedMs = finalTempFrom segments 25) := by
  constructor
  · intro seg rest hsegs htype htarget
    subst hsegs
    have hr : 0 < seg.rate.getD 0 := (h seg (List.mem_cons_self _ _)).2 htype
    have habs : 0 < |seg.targetTemp - 25| := by
      rw [abs_pos]; intro hz; exact htarget (by linarith [sub_eq_zero.mp hz])
    have hdur : 0 < segDurationAt seg 25 := by
      simp only [segDurationAt, htype]
      positivity
    unfold getCurrentTemp getCurrentTempAux
    rw [if_pos (by simpa using hdur)]
    simp only [htype]
    norm_num [jsRound]
  · intro elapsedMs he
    unfold getCurrentTemp
    apply getCurrentTempAux_final segments h 25 0 (elapsedMs / 60000)
    have : exactTheoreticalMinutes segments = claimDurationSum segments 25 := by
      unfold exactTheoreticalMinutes; rw [foldl_durStep_eq]; ring
    linarith [this ▸ he]

/-- C4 witness: the amended theorem at Scenario A's segments — temperature 25°C
at elapsed 0, and the terminal 25°C (the final ramp's target) at elapsed
548 minutes (548 ≥ exact total 547.5). -/
theorem C4_temperature_boundaries_witness :
    getCurrentTemp scenarioASegments 0 = 25
      ∧ getCurrentTemp scenarioASegments (548 * 60000) = 25 := by
  have h := C4_temperature_boundaries scenarioASegments (by
    intro seg hseg
    fin_cases hseg <;> constructor <;> intro ht <;> simp_all [scenarioASegments])
  refine ⟨h.1 _ _ rfl rfl (by norm_num [scenarioASegments]), ?_⟩
  have := h.2 (548 * 60000) (by norm_num [exactTheoreticalMinutes, durStep, scenarioASegments])
  simpa [finalTempFrom, scenarioASegments] using this

/-! ## Calibration engine (`calculateLocalCalibration`, src/services/calibrationService.ts) -/

/-- The TS outcome union `'perfect' | 'underfired' | 'overfired' | 'error' | 'failure'`. -/
inductive Outcome where
  | perfect : Outcome
  | underfired : Outcome
  | overfired : Outcome
  | error : Outcome
  | failure : Outcome
deriving DecidableEq, Repr

/-- `FiringLog` (src/unnamed/part_004): only the fields `calculateLocalCalibration`
reads are kept (`id`, `scheduleName`, `clayWeight`, `notes` are never read).
`date` is the epoch-millisecond value `new Date(log.date).getTime()` of the ISO
timestamp string. -/
structure FiringLog where
  date : ℤ
  predictedDuration : ℚ
  theoreticalDuration : Option ℚ := none
  actualDuration : ℚ
  outcome : Outcome
deriving DecidableEq, Repr

/-- `CalibrationResult`: multiplicative factor and advice text. -/
structure CalibrationResult where
  factor : ℚ
  advice : String
deriving DecidableEq, Repr

/-- Per-log baseline ratio: `actualDuration / theoreticalDuration` when
`log.theoreticalDuration && log.theoreticalDuration > 0`, else
`actualDuration / predictedDuration` (legacy fallback). -/
def logRatio (log : FiringLog) : ℚ :=
  match log.theoreticalDuration with
  | some t => if 0 < t then log.actualDuration / t else log.actualDuration / log.predictedDuration
  | none => log.actualDuration / log.predictedDuration

/-- Comparator of the chronological sort `(a, b) => new Date(a.date) - new Date(b.date)`. -/
def dateLe (a b : FiringLog) : Prop := a.date ≤ b.date

instance : DecidableRel dateLe := fun a b => inferInstanceAs (Decidable (a.date ≤ b.date))

/-- `validLogs`: filter out `'error'`/`'failure'` outcomes, then sort ascending
by timestamp (JS `Array.prototype.sort` is stable; so is insertion sort). -/
def validLogs (history : List FiringLog) : List FiringLog :=
  List.insertionSort dateLe
    (history.filter fun log => log.outcome ≠ Outcome.error ∧ log.outcome ≠ Outcome.failure)

/-- One iteration of the `validLogs.forEach((log, index) => ...)` body: skip the
log if its ratio is `> 1.5` or `< 0.5`, otherwise add `ratio * 1.6^index` and
`1.6^index` to the accumulators `(totalWeightedRatio, totalWeight)`. -/
def calibStep (st : ℚ × ℚ) (p : ℕ × FiringLog) : ℚ × ℚ :=
  let ratio := logRatio p.2
  if ratio > 3/2 ∨ ratio < 1/2 then st
  else (st.1 + ratio * (8/5) ^ p.1, st.2 + (8/5) ^ p.1)

/-- `(totalWeightedRatio, totalWeight)` after the `forEach` loop (base 1.6 = 8/5). -/
def calibSums (valid : List FiringLog) : ℚ × ℚ :=
  valid.enum.foldl calibStep (0, 0)

/-- Advice for an empty history. -/
def adviceNoData : String := "尚無歷史數據可供校正。"

/-- Advice when every log was filtered out as error/failure. -/
def adviceNoValid : String := "有效數據不足（已排除錯誤/失敗/中止紀錄）。"

/-- Advice when all surviving logs were ratio outliers (zero total weight). -/
def adviceAllOutliers : String := "數據偏差過大，無法進行有效校正。請檢查電窯是否故障。"

/-- The advice text of the main branch: percentage = `Math.round((factor-1)*100)`,
`method` from whether any valid log carries a truthy `theoreticalDuration`,
three-way branch on the percentage. -/
def mainAdvice (history : List FiringLog) : String :=
  let valid := validLogs history
  let weightedFactor := (calibSums valid).1 / (calibSums valid).2
  let percentage : ℤ := jsRound ((weightedFactor - 1) * 100)
  let pabs := percentage.natAbs
  let count := valid.length
  let method : String :=
    if valid.any (fun l => decide (l.theoreticalDuration.getD 0 ≠ 0)) then "絕對理論值"
    else "歷史預估值"
  if pabs < 1 then
    s!"系統分析了 {count} 筆有效紀錄。您的電窯表現非常精準，實際時間與理論值幾乎一致。"
  else if percentage > 0 then
    s!"系統使用「指數加權」與「{method}」分析了 {count} 筆有效紀錄。您的電窯近期平均比理論值慢約 {percentage}%。可能是保溫效果良好導致降溫慢，或加熱元件老化。已自動更新參數以延長預估時間。"
  else
    s!"系統使用「指數加權」與「{method}」分析了 {count} 筆有效紀錄。您的電窯近期平均比理論值快約 {pabs}%。這可能表示電窯功率強勁或負載較輕。已自動更新參數以縮短預估時間。"

/-- `calculateLocalCalibration` (src/services/calibrationService.ts): empty
history and empty-after-filtering return factor 1 with explanatory advice;
zero total weight (all surviving ratios were outliers) returns factor 1 with
the equipment-inspection advice; otherwise the factor is the weighted average
rounded to three decimals via `toFixed(3)`. -/
def calculateLocalCalibration (history : List FiringLog) : CalibrationResult :=
  if history = [] then ⟨1, adviceNoData⟩
  else if validLogs history = [] then ⟨1, adviceNoValid⟩
  else if (calibSums (validLogs history)).2 = 0 then ⟨1, adviceAllOutliers⟩
  else
    ⟨round3 ((calibSums (validLogs history)).1 / (calibSums (validLogs history)).2),
     mainAdvice history⟩

/-- A well-formed modern log at timestamp `d` whose ratio is exactly `r`
(theoretical baseline 100 minutes, actual `100 * r`). -/
def cleanLog (d : ℤ) (r : ℚ) : FiringLog :=
  { date := d, predictedDuration := 100, theoreticalDuration := some 100,
    actualDuration := 100 * r, outcome := Outcome.perfect }

theorem logRatio_cleanLog (d : ℤ) (r : ℚ) : logRatio (cleanLog d r) = r := by
  simp only [logRatio, cleanLog]
  norm_num

theorem calibStep_keep (st : ℚ × ℚ) (i : ℕ) (log : FiringLog)
    (h1 : ¬ logRatio log > 3/2) (h2 : ¬ logRatio log < 1/2) :
    calibStep st (i, log) = (st.1 + logRatio log * (8/5) ^ i, st.2 + (8/5) ^ i) := by
  simp only [calibStep]
  rw [if_neg (not_or.mpr ⟨h1, h2⟩)]

theorem calibStep_skip (st : ℚ × ℚ) (i : ℕ) (log : FiringLog)
    (h : logRatio log > 3/2 ∨ logRatio log < 1/2) :
    calibStep st (i, log) = st := by
  simp only [calibStep]
  rw [if_pos h]

instance : IsTotal FiringLog dateLe := ⟨fun a b => le_total a.date b.date⟩

instance : IsTrans FiringLog dateLe := ⟨fun _ _ _ hab hbc => le_trans hab hbc⟩

theorem calib_eval (history valid : List FiringLog)
    (hne : history ≠ []) (hv : validLogs history = valid) (hvne : valid ≠ [])
    (R W : ℚ) (hs : calibSums valid = (R, W)) (hW : W ≠ 0) :
    (calculateLocalCalibration history).factor = round3 (R / W) := by
  unfold calculateLocalCalibration
  rw [if_neg hne, hv, if_neg hvne, hs, if_neg (by simpa using hW)]

theorem calibSums_foldl_invariant (l : List (ℕ × FiringLog)) :
    ∀ R W : ℚ, W * (1/2) ≤ R → R ≤ W * (3/2) → 0 ≤ W →
      (l.foldl calibStep (R, W)).2 * (1/2) ≤ (l.foldl calibStep (R, W)).1
        ∧ (l.foldl calibStep (R, W)).1 ≤ (l.foldl calibStep (R, W)).2 * (3/2)
        ∧ 0 ≤ (l.foldl calibStep (R, W)).2 := by
  induction l with
  | nil => intro R W h1 h2 h3; exact ⟨h1, h2, h3⟩
  | cons p l ih =>
      intro R W h1 h2 h3
      rw [List.foldl_cons]
      by_cases hout : logRatio p.2 > 3/2 ∨ logRatio p.2 < 1/2
      · rw [show calibStep (R, W) p = calibStep (R, W) (p.1, p.2) by rfl,
          calibStep_skip _ _ _ hout]
        exact ih R W h1 h2 h3
      · push_neg at hout
        have hw : (0 : ℚ) < (8/5) ^ p.1 := by positivity
        have hcl : 1/2 ≤ logRatio p.2 := hout.2
        have hcu : logRatio p.2 ≤ 3/2 := hout.1
        rw [show calibStep (R, W) p = calibStep (R, W) (p.1, p.2) by rfl,
          calibStep_keep _ _ _ (not_lt.mpr hcu) (not_lt.mpr hcl)]
        refine ih _ _ ?_ ?_ ?_
        · have haux : (8/5 : ℚ) ^ p.1 * (1/2) ≤ logRatio p.2 * (8/5) ^ p.1 := by
            nlinarith
          simp only
          nlinarith
        · have haux : logRatio p.2 * (8/5) ^ p.1 ≤ (8/5 : ℚ) ^ p.1 * (3/2) := by
            nlinarith
          simp only
          nlinarith
        · simp only
          nlinarith

theorem round3_bounds (x : ℚ) (hl : 1/2 ≤ x) (hu : x ≤ 3/2) :
    1/2 ≤ round3 x ∧ round3 x ≤ 3/2 := by
  unfold round3 jsRound
  constructor
  · rw [le_div_iff (by norm_num : (0:ℚ) < 1000)]
    have h500 : (500 : ℤ) ≤ ⌊x * 1000 + 1/2⌋ := Int.le_floor.mpr (by push_cast; linarith)
    calc (1/2 : ℚ) * 1000 = ((500 : ℤ) : ℚ) := by norm_num
    _ ≤ (⌊x * 1000 + 1/2⌋ : ℚ) := by exact_mod_cast h500
  · rw [div_le_iff (by norm_num : (0:ℚ) < 1000)]
    have hlt : ⌊x * 1000 + 1/2⌋ < 1501 := Int.floor_lt.mpr (by push_cast; linarith)
    have hle : ⌊x * 1000 + 1/2⌋ ≤ 1500 := by omega
    calc (⌊x * 1000 + 1/2⌋ : ℚ) ≤ ((1500 : ℤ) : ℚ) := by exact_mod_cast hle
    _ = (3/2) * 1000 := by norm_num

theorem calibFactor_bounds_rat (history : List FiringLog) :
    1/2 ≤ (calculateLocalCalibration history).factor
      ∧ (calculateLocalCalibration history).factor ≤ 3/2 := by
  unfold calculateLocalCalibration
  split_ifs with h1 h2 h3
  · norm_num
  · norm_num
  · norm_num
  · have hinv := calibSums_foldl_invariant (validLogs history).enum 0 0
      (by norm_num) (by norm_num) (by norm_num)
    have hW0 : ¬ (calibSums (validLogs history)).2 = 0 := h3
    have hsum_eq : calibSums (validLogs history) = (validLogs history).enum.foldl calibStep (0, 0) := rfl
    rw [hsum_eq] at hW0 ⊢
    set st := (validLogs history).enum.foldl calibStep (0, 0) with hst
    have hWpos : 0 < st.2 := lt_of_le_of_ne hinv.2.2 (Ne.symm hW0)
    have hq1 : 1/2 ≤ st.1 / st.2 := by
      rw [le_div_iff hWpos]; linarith [hinv.1]
    have hq2 : st.1 / st.2 ≤ 3/2 := by
      rw [div_le_iff hWpos]; linarith [hinv.2.1]
    exact round3_bounds _ hq1 hq2

/-- C6: `calculateLocalCalibration` is a total function (never throws) and in
each degenerate case returns factor 1 with an explanatory advice string: the
empty history, a history whose every log has outcome error/failure, and a
history whose surviving logs all fail the outlier filter (zero total weight);
the all-outliers advice is distinct from the other two advice strings. -/
theorem C6_calibration_degenerate :
    calculateLocalCalibration [] = ⟨1, adviceNoData⟩
      ∧ (∀ h : List FiringLog, h ≠ [] →
          (∀ l ∈ h, l.outcome = Outcome.error ∨ l.outcome = Outcome.failure) →
          calculateLocalCalibration h = ⟨1, adviceNoValid⟩)
      ∧ (∀ h : List FiringLog, validLogs h ≠ [] → (calibSums (validLogs h)).2 = 0 →
          calculateLocalCalibration h = ⟨1, adviceAllOutliers⟩)
      ∧ adviceAllOutliers ≠ adviceNoData ∧ adviceAllOutliers ≠ adviceNoValid := by
  refine ⟨rfl, ?_, ?_, by decide, by decide⟩
  · intro h hne hall
    have hfil : (h.filter fun log =>
        log.outcome ≠ Outcome.error ∧ log.outcome ≠ Outcome.failure) = [] := by
      rw [List.filter_eq_nil]
      intro a ha
      rcases hall a ha with h1 | h1 <;> simp [h1]
    have hv : validLogs h = [] := by
      unfold validLogs
      rw [hfil]
      rfl
    unfold calculateLocalCalibration
    rw [if_neg hne, if_pos hv]
  · intro h hvne hw
    have hne : h ≠ [] := by
      intro he
      subst he
      exact hvne rfl
    unfold calculateLocalCalibration
    rw [if_neg hne, if_neg hvne, if_pos hw]

/-- C6 witness: the degenerate branches hit at concrete inputs — a single
error-outcome log, and a single valid log whose ratio 3.0 is an outlier. -/
theorem C6_calibration_degenerate_witness :
    calculateLocalCalibration
        [ { date := 0, predictedDuration := 100, actualDuration := 100,
            outcome := Outcome.error } ] = ⟨1, adviceNoValid⟩
      ∧ calculateLocalCalibration [cleanLog 0 3] = ⟨1, adviceAllOutliers⟩ := by
  constructor
  · exact C6_calibration_degenerate.2.1 _ (by simp)
      (by intro l hl; rw [List.mem_singleton] at hl; subst hl; left; rfl)
  · have hvl : validLogs [cleanLog 0 3] = [cleanLog 0 3] := by
      simp [validLogs, cleanLog]
    refine C6_calibration_degenerate.2.2.1 _ (by rw [hvl]; simp) ?_
    rw [hvl]
    unfold calibSums
    rw [show ([cleanLog 0 3]).enum = [(0, cleanLog 0 3)] from rfl,
      List.foldl_cons, List.foldl_nil,
      calibStep_skip _ _ _ (Or.inl (by rw [logRatio_cleanLog]; norm_num))]

theorem calib_two_clean (r0 r1 : ℚ)
    (h0l : 1/2 ≤ r0) (h0u : r0 ≤ 3/2) (h1l : 1/2 ≤ r1) (h1u : r1 ≤ 3/2) :
    (calculateLocalCalibration [cleanLog 0 r0, cleanLog 1 r1]).factor
      = round3 ((r0 + r1 * (8/5)) / (1 + 8/5)) := by
  have hv : validLogs [cleanLog 0 r0, cleanLog 1 r1] = [cleanLog 0 r0, cleanLog 1 r1] := by
    simp [validLogs, cleanLog, dateLe]
  have hs : calibSums [cleanLog 0 r0, cleanLog 1 r1]
      = (0 + r0 * (8/5)^0 + r1 * (8/5)^1, 0 + (8/5)^0 + (8/5)^1) := by
    unfold calibSums
    rw [show ([cleanLog 0 r0, cleanLog 1 r1]).enum
        = [(0, cleanLog 0 r0), (1, cleanLog 1 r1)] from rfl]
    rw [List.foldl_cons,
      calibStep_keep _ _ _ (by rw [logRatio_cleanLog]; linarith) (by rw [logRatio_cleanLog]; linarith),
      List.foldl_cons,
      calibStep_keep _ _ _ (by rw [logRatio_cleanLog]; linarith) (by rw [logRatio_cleanLog]; linarith),
      List.foldl_nil, logRatio_cleanLog, logRatio_cleanLog]
  rw [calib_eval _ _ (by simp) hv (by simp) _ _ hs (by norm_num)]
  congr 1
  norm_num

theorem calib_three_clean_mid_outlier (r0 r1 : ℚ)
    (h0l : 1/2 ≤ r0) (h0u : r0 ≤ 3/2) (h1l : 1/2 ≤ r1) (h1u : r1 ≤ 3/2) :
    (calculateLocalCalibration [cleanLog 0 r0, cleanLog 1 3, cleanLog 2 r1]).factor
      = round3 ((r0 + r1 * (8/5)^2) / (1 + (8/5)^2)) := by
  have hv : validLogs [cleanLog 0 r0, cleanLog 1 3, cleanLog 2 r1]
      = [cleanLog 0 r0, cleanLog 1 3, cleanLog 2 r1] := by
    simp [validLogs, cleanLog, dateLe]
  have hs : calibSums [cleanLog 0 r0, cleanLog 1 3, cleanLog 2 r1]
      = (0 + r0 * (8/5)^0 + r1 * (8/5)^2, 0 + (8/5)^0 + (8/5)^2) := by
    unfold calibSums
    rw [show ([cleanLog 0 r0, cleanLog 1 3, cleanLog 2 r1]).enum
        = [(0, cleanLog 0 r0), (1, cleanLog 1 3), (2, cleanLog 2 r1)] from rfl]
    rw [List.foldl_cons,
      calibStep_keep _ _ _ (by rw [logRatio_cleanLog]; linarith) (by rw [logRatio_cleanLog]; linarith),
      List.foldl_cons,
      calibStep_skip _ _ _ (Or.inl (by rw [logRatio_cleanLog]; norm_num)),
      List.foldl_cons,
      calibStep_keep _ _ _ (by rw [logRatio_cleanLog]; linarith) (by rw [logRatio_cleanLog]; linarith),
      List.foldl_nil, logRatio_cleanLog, logRatio_cleanLog]
  rw [calib_eval _ _ (by simp) hv (by simp) _ _ hs (by norm_num)]
  congr 1
  norm_num

/-- C2 counterexample: the history
`[cleanLog 0 ratio-1.0, cleanLog 1 ratio-3.0, cleanLog 2 ratio-1.2]` has exactly
two surviving logs (the middle ratio 3.0 is an outlier), oldest ratio 1.0 and
newest ratio 1.2, yet the factor is 1.144, not the claimed 1.123: the weight
exponent is the log's index among all outcome-valid sorted logs, so the outlier
still occupies index 1 and the newest surviving log is weighted `1.6²`. -/
theorem C2_counterexample_outlier_keeps_index :
    (calculateLocalCalibration [cleanLog 0 1, cleanLog 1 3, cleanLog 2 (12/10)]).factor = 1.144
      ∧ logRatio (cleanLog 0 1) = 1
      ∧ logRatio (cleanLog 1 3) = 3
      ∧ logRatio (cleanLog 2 (12/10)) = 12/10
      ∧ (1.144 : ℚ) ≠ 1.123 := by
  refine ⟨?_, logRatio_cleanLog _ _, logRatio_cleanLog _ _, logRatio_cleanLog _ _, by norm_num⟩
  rw [calib_three_clean_mid_outlier 1 (12/10) (by norm_num) (by norm_num) (by norm_num) (by norm_num)]
  norm_num [round3, jsRound]

/-- C2 (amended): the weight `1.6^i` is assigned by the log's index in the
outcome-filtered, chronologically sorted list — outlier logs are excluded from
the sums but still occupy index positions, inflating the weights of the logs
after them.  For two surviving ratios `r0` (older) and `r1` (newer) the factor
is `round3((r0·1 + r1·1.6)/(1+1.6))` when they are the only valid logs (1.123
at ratios 1.0 and 1.2), but `round3((r0·1 + r1·1.6²)/(1+1.6²))` when an outlier
sits between them. -/
theorem C2_weight_indexing (r0 r1 : ℚ)
    (h0l : 1/2 ≤ r0) (h0u : r0 ≤ 3/2) (h1l : 1/2 ≤ r1) (h1u : r1 ≤ 3/2) :
    (calculateLocalCalibration [cleanLog 0 r0, cleanLog 1 r1]).factor
        = round3 ((r0 + r1 * (8/5)) / (1 + 8/5))
      ∧ (calculateLocalCalibration [cleanLog 0 r0, cleanLog 1 3, cleanLog 2 r1]).factor
        = round3 ((r0 + r1 * (8/5)^2) / (1 + (8/5)^2)) :=
  ⟨calib_two_clean r0 r1 h0l h0u h1l h1u,
   calib_three_clean_mid_outlier r0 r1 h0l h0u h1l h1u⟩

/-- C2 witness: at ratios 1.0 (older) and 1.2 (newer), the two-log factor is
1.123 and the outlier-interposed factor is 1.144. -/
theorem C2_weight_indexing_witness :
    (calculateLocalCalibration [cleanLog 0 1, cleanLog 1 (12/10)]).factor = 1.123
      ∧ (calculateLocalCalibration [cleanLog 0 1, cleanLog 1 3, cleanLog 2 (12/10)]).factor
        = 1.144 := by
  have h := C2_weight_indexing 1 (12/10) (by norm_num) (by norm_num) (by norm_num) (by norm_num)
  refine ⟨h.1.trans ?_, h.2.trans ?_⟩ <;> norm_num [round3, jsRound]

theorem orderedInsert_snoc (a L : FiringLog) (hal : dateLe a L) :
    ∀ s : List FiringLog,
      List.orderedInsert dateLe a (s ++ [L]) = List.orderedInsert dateLe a s ++ [L] := by
  intro s
  induction s with
  | nil => simp [List.orderedInsert, hal]
  | cons y s ih =>
      simp only [List.cons_append, List.orderedInsert, List.append_eq]
      by_cases hay : dateLe a y
      · rw [if_pos hay, if_pos hay]
        simp
      · rw [if_neg hay, if_neg hay, ih]
        simp

theorem insertionSort_snoc_max (L : FiringLog) :
    ∀ l : List FiringLog, (∀ x ∈ l, dateLe x L) →
      List.insertionSort dateLe (l ++ [L]) = List.insertionSort dateLe l ++ [L] := by
  intro l
  induction l with
  | nil => intro _; simp [List.insertionSort]
  | cons a l ih =>
      intro hm
      simp only [List.cons_append, List.insertionSort, List.append_eq]
      rw [ih (fun x hx => hm x (List.mem_cons_of_mem _ hx)),
        orderedInsert_snoc a L (hm a (List.mem_cons_self _ _))]

/-- C3 counterexample: a log whose ratio is exactly 1.5 — outside the claimed
open interval (0.5, 1.5) — is NOT discarded: the filter drops only ratios
strictly greater than 1.5 or strictly less than 0.5, so a lone ratio-1.5 log
yields factor 1.5 (had it been discarded, the zero-weight branch would have
returned factor 1). -/
theorem C3_counterexample_boundary_ratio_kept :
    logRatio (cleanLog 0 (3/2)) = 3/2
      ∧ (calculateLocalCalibration [cleanLog 0 (3/2)]).factor = 3/2
      ∧ (3/2 : ℚ) ≠ 1 := by
  refine ⟨logRatio_cleanLog _ _, ?_, by norm_num⟩
  have hv : validLogs [cleanLog 0 (3/2)] = [cleanLog 0 (3/2)] := by
    simp [validLogs, cleanLog]
  have hs : calibSums [cleanLog 0 (3/2)] = (0 + (3/2) * (8/5)^0, 0 + (8/5)^0) := by
    unfold calibSums
    rw [show ([cleanLog 0 (3/2)]).enum = [(0, cleanLog 0 (3/2))] from rfl]
    rw [List.foldl_cons,
      calibStep_keep _ _ _ (by rw [logRatio_cleanLog]; norm_num) (by rw [logRatio_cleanLog]; norm_num),
      List.foldl_nil, logRatio_cleanLog]
  rw [calib_eval _ _ (by simp) hv (by simp) _ _ hs (by norm_num)]
  norm_num [round3, jsRound]

/-- C3 (amended): the outlier filter discards exactly the logs whose ratio is
strictly outside the closed interval [0.5, 1.5] (a ratio of exactly 1.5 or 0.5
is kept); an excluded log's ratio never enters the weighted sums, and appending
an outlier log as the newest entry leaves the computed factor unchanged for
every history.  (Injected earlier than the newest entry, the outlier still
shifts later logs' weight indices — see the weight-indexing analysis of the
calibration sums.) -/
theorem C3_outlier_exclusion (h : List FiringLog) (L : FiringLog)
    (hv1 : L.outcome ≠ Outcome.error) (hv2 : L.outcome ≠ Outcome.failure)
    (hmax : ∀ x ∈ h, x.date ≤ L.date)
    (hout : logRatio L > 3/2 ∨ logRatio L < 1/2) :
    (calculateLocalCalibration (h ++ [L])).factor = (calculateLocalCalibration h).factor := by
  have hfil : ((h ++ [L]).filter fun log =>
      log.outcome ≠ Outcome.error ∧ log.outcome ≠ Outcome.failure)
      = (h.filter fun log =>
          log.outcome ≠ Outcome.error ∧ log.outcome ≠ Outcome.failure) ++ [L] := by
    rw [List.filter_append]
    congr 1
    simp [hv1, hv2]
  have hvl : validLogs (h ++ [L]) = validLogs h ++ [L] := by
    unfold validLogs
    rw [hfil]
    exact insertionSort_snoc_max L _ (fun x hx => hmax x (List.mem_of_mem_filter hx))
  have hsums : calibSums (validLogs h ++ [L]) = calibSums (validLogs h) := by
    unfold calibSums
    rw [List.enum_append,
      show List.enumFrom (validLogs h).length [L] = [((validLogs h).length, L)] from rfl,
      List.foldl_append, List.foldl_cons, List.foldl_nil, calibStep_skip _ _ _ hout]
  by_cases he : h = []
  · subst he
    have hvlL : validLogs [L] = [L] := by simpa [validLogs] using hvl
    have hsL : calibSums [L] = (0, 0) := by simpa [validLogs] using hsums
    rw [show ([] : List FiringLog) ++ [L] = [L] from rfl]
    unfold calculateLocalCalibration
    rw [if_neg (by simp), hvlL, if_neg (by simp), hsL, if_pos rfl, if_pos rfl]
  · by_cases hve : validLogs h = []
    · have h0 : calibSums ([] : List FiringLog) = (0, 0) := rfl
      have hsL : calibSums [L] = (0, 0) := by
        rw [hve, List.nil_append] at hsums
        exact hsums.trans h0
      unfold calculateLocalCalibration
      rw [if_neg (show ¬ h ++ [L] = [] by simp), if_neg he, hvl, hve, List.nil_append,
        if_neg (show ¬ ([L] : List FiringLog) = [] by simp), hsL,
        if_pos (show ((0 : ℚ), (0 : ℚ)).2 = 0 from rfl),
        if_pos (show ([] : List FiringLog) = [] from rfl)]
    · have hvne : validLogs h ++ [L] ≠ [] := by simp
      by_cases hW : (calibSums (validLogs h)).2 = 0
      · unfold calculateLocalCalibration
        rw [if_neg (by simp), if_neg he, hvl, if_neg hvne, if_neg hve, hsums, if_pos hW,
          if_pos hW]
      · unfold calculateLocalCalibration
        rw [if_neg (by simp), if_neg he, hvl, if_neg hvne, if_neg hve, hsums, if_neg hW,
          if_neg hW]

/-- C3 witness: appending a newest log with outlier ratio 3.0 to the one-log
history of ratio 1.0 leaves the factor unchanged. -/
theorem C3_outlier_exclusion_witness :
    (calculateLocalCalibration ([cleanLog 0 1] ++ [cleanLog 1 3])).factor
      = (calculateLocalCalibration [cleanLog 0 1]).factor :=
  C3_outlier_exclusion [cleanLog 0 1] (cleanLog 1 3)
    (by simp [cleanLog]) (by simp [cleanLog])
    (by intro x hx; rw [List.mem_singleton] at hx; subst hx; simp [cleanLog])
    (Or.inl (by rw [logRatio_cleanLog]; norm_num))

theorem round3_ne_of_gap (x y : ℚ) (hgap : 1/1000 < |x - y|) : round3 x ≠ round3 y := by
  intro heq
  unfold round3 jsRound at heq
  have hfl : ⌊x * 1000 + 1/2⌋ = ⌊y * 1000 + 1/2⌋ := by
    have h1000 : ((⌊x * 1000 + 1/2⌋ : ℤ) : ℚ) / 1000 * 1000
        = ((⌊y * 1000 + 1/2⌋ : ℤ) : ℚ) / 1000 * 1000 := by rw [heq]
    rw [div_mul_cancel₀ _ (by norm_num : (1000:ℚ) ≠ 0),
      div_mul_cancel₀ _ (by norm_num : (1000:ℚ) ≠ 0)] at h1000
    exact_mod_cast h1000
  have hx1 := Int.floor_le (x * 1000 + 1/2)
  have hx2 := Int.lt_floor_add_one (x * 1000 + 1/2)
  have hy1 := Int.floor_le (y * 1000 + 1/2)
  have hy2 := Int.lt_floor_add_one (y * 1000 + 1/2)
  rw [hfl] at hx1 hx2
  have habs : |x - y| < 1/1000 := by
    rw [abs_sub_lt_iff]
    constructor <;> linarith
  linarith

/-- C7 counterexample: the palindromic history with ratios 0.9, 1.2, 0.9 at
timestamps 0, 1, 2 — the same multiset with its chronological order reversed
(timestamps swapped so oldest and newest exchange roles) sorts to the identical
log list, hence the factor is unchanged even though the ratios are not all
equal. -/
theorem C7_counterexample_palindrome :
    (calculateLocalCalibration
        [cleanLog 0 (9/10), cleanLog 1 (12/10), cleanLog 2 (9/10)]).factor
      = (calculateLocalCalibration
          [cleanLog 2 (9/10), cleanLog 1 (12/10), cleanLog 0 (9/10)]).factor
      ∧ (9/10 : ℚ) ≠ 12/10 := by
  constructor
  · have hv1 : validLogs [cleanLog 0 (9/10), cleanLog 1 (12/10), cleanLog 2 (9/10)]
        = [cleanLog 0 (9/10), cleanLog 1 (12/10), cleanLog 2 (9/10)] := by
      simp [validLogs, cleanLog, dateLe]
    have hv2 : validLogs [cleanLog 2 (9/10), cleanLog 1 (12/10), cleanLog 0 (9/10)]
        = [cleanLog 0 (9/10), cleanLog 1 (12/10), cleanLog 2 (9/10)] := by
      simp [validLogs, cleanLog, dateLe]
    have : calculateLocalCalibration
        [cleanLog 0 (9/10), cleanLog 1 (12/10), cleanLog 2 (9/10)]
        = calculateLocalCalibration
          [cleanLog 2 (9/10), cleanLog 1 (12/10), cleanLog 0 (9/10)] := by
      unfold calculateLocalCalibration mainAdvice
      rw [if_neg (show ¬ ([cleanLog 0 (9/10), cleanLog 1 (12/10), cleanLog 2 (9/10)]
            : List FiringLog) = [] by simp),
        if_neg (show ¬ ([cleanLog 2 (9/10), cleanLog 1 (12/10), cleanLog 0 (9/10)]
            : List FiringLog) = [] by simp), hv1, hv2]
    rw [this]
  · norm_num

/-- C7 (amended): the engine does sort the filtered logs ascending by timestamp
(`validLogs` is always sorted by `dateLe`), and recency weighting makes the
result order-sensitive for two-log histories whose ratios differ by at least
0.005: swapping which ratio carries the older and the newer timestamp changes
the factor.  Reversal does not change the factor for every non-constant ratio
multiset, however — a palindromic ratio sequence is invariant. -/
theorem C7_sorting_and_order_sensitivity (r0 r1 : ℚ)
    (h0l : 1/2 ≤ r0) (h0u : r0 ≤ 3/2) (h1l : 1/2 ≤ r1) (h1u : r1 ≤ 3/2)
    (hgap : 1/200 ≤ |r1 - r0|) :
    (∀ h : List FiringLog, List.Sorted dateLe (validLogs h))
      ∧ (calculateLocalCalibration [cleanLog 0 r0, cleanLog 1 r1]).factor
        ≠ (calculateLocalCalibration [cleanLog 0 r1, cleanLog 1 r0]).factor := by
  constructor
  · intro h
    exact List.sorted_insertionSort dateLe _
  · rw [calib_two_clean r0 r1 h0l h0u h1l h1u, calib_two_clean r1 r0 h1l h1u h0l h0u]
    apply round3_ne_of_gap
    rw [show (r0 + r1 * (8/5)) / (1 + 8/5) - (r1 + r0 * (8/5)) / (1 + 8/5)
        = (3/13) * (r1 - r0) by ring, abs_mul, abs_of_pos (by norm_num : (0:ℚ) < 3/13)]
    linarith

/-- C7 witness: ratios 1.0 and 1.2 (gap 0.2 ≥ 0.005) — the factor differs when
the two logs exchange their timestamps. -/
theorem C7_sorting_and_order_sensitivity_witness :
    (calculateLocalCalibration [cleanLog 0 1, cleanLog 1 (12/10)]).factor
      ≠ (calculateLocalCalibration [cleanLog 0 (12/10), cleanLog 1 1]).factor :=
  (C7_sorting_and_order_sensitivity 1 (12/10) (by norm_num) (by norm_num) (by norm_num)
    (by norm_num) (by
      rw [show (12/10 : ℚ) - 1 = 1/5 by norm_num,
        abs_of_pos (by norm_num : (0:ℚ) < 1/5)]
      norm_num)).2

/-! ## Cloud monitor tick (`monitorFirings`, src/GAS.md)

One row's processing per sample tick: compute progress and remaining time,
evaluate the three notification conditions in order — progress thresholds
50/75/90, then near-completion, then overrun — each overwriting the single
`embed`/`newNotifiedVal` pair, and finally broadcast the surviving embed (if
any) and persist the new watermark.  The embed payload is abstracted to its
event identity; `broadcastEmbed` calls are modelled as the emitted list. -/

/-- Identity of the notification embed built in a tick. -/
inductive MonitorEvent where
  | progressReport : ℚ → MonitorEvent
  | almostDone : MonitorEvent
  | overdue : MonitorEvent
deriving DecidableEq, Repr

/-- `const thresholds = [50, 75, 90]`. -/
def monitorThresholds : List ℚ := [50, 75, 90]

/-- One `monitorFirings` row evaluation: returns the embed (if any) and the
watermark cell value after the tick (`setValue(newNotifiedVal)` only runs when
an embed was built; otherwise the stored watermark stays `lastNotified`). -/
def monitorStep (lastNotified elapsedMs totalDurationMins : ℚ) : Option MonitorEvent × ℚ :=
  let progress := elapsedMs / (totalDurationMins * 60 * 1000) * 100
  let remainingMs := totalDurationMins * 60 * 1000 - elapsedMs
  let st1 := monitorThresholds.foldl
    (fun st t =>
      if t ≤ progress ∧ lastNotified < t then (some (MonitorEvent.progressReport t), t) else st)
    ((none : Option MonitorEvent), lastNotified)
  let st2 := if 0 < remainingMs ∧ remainingMs ≤ 15 * 60 * 1000 ∧ lastNotified < 95 then
      (some MonitorEvent.almostDone, (99 : ℚ))
    else st1
  let st3 := if remainingMs < -(10 * 60 * 1000) ∧ lastNotified < 100 then
      (some MonitorEvent.overdue, (100 : ℚ))
    else st2
  (st3.1, if st3.1.isSome then st3.2 else lastNotified)

/-- The `broadcastEmbed` calls made during one tick (zero or one). -/
def monitorBroadcasts (lastNotified elapsedMs totalDurationMins : ℚ) : List MonitorEvent :=
  (monitorStep lastNotified elapsedMs totalDurationMins).1.toList

/-- C5: each monitor tick broadcasts at most one notification (later conditions
overwrite the single embed slot) and never decreases the watermark; and in the
coarse-polling scenario — watermark 0, a 400-minute firing sampled at 40% then
at 95% progress — the 40% tick emits nothing and the 95% tick emits exactly one
event, the 90% progress report (not three separate 50/75/90 events), advancing
the watermark to 90. -/
theorem C5_monitor_single_event_and_monotone :
    (∀ ln e tot : ℚ,
        (monitorBroadcasts ln e tot).length ≤ 1 ∧ ln ≤ (monitorStep ln e tot).2)
      ∧ monitorStep 0 9600000 400 = (none, 0)
      ∧ monitorStep 0 22800000 400 = (some (MonitorEvent.progressReport 90), 90)
      ∧ monitorBroadcasts 0 22800000 400 = [MonitorEvent.progressReport 90] := by
  refine ⟨?_, ?_, ?_, ?_⟩
  · intro ln e tot
    constructor
    · rcases hopt : (monitorStep ln e tot).1 with _ | ev <;>
        simp [monitorBroadcasts, hopt]
    · unfold monitorStep
      simp only [monitorThresholds, List.foldl_cons, List.foldl_nil]
      split_ifs <;> simp_all <;> linarith
  · norm_num [monitorStep, monitorThresholds]
  · norm_num [monitorStep, monitorThresholds]
  · norm_num [monitorBroadcasts, monitorStep, monitorThresholds]

/-! ## Schedule generator (`generateSchedule`, src/services/experienceService.ts) -/

/-- The TS union `'standard' | 'thick' | 'thin' | 'large_flat' | 'sculpture'`. -/
inductive SampleType where
  | standard : SampleType
  | thick : SampleType
  | thin : SampleType
  | large_flat : SampleType
  | sculpture : SampleType
deriving DecidableEq, Repr

/-- The TS union `'bisque' | 'glaze' | 'uncertain'`. -/
inductive FiringStage where
  | bisque : FiringStage
  | glaze : FiringStage
  | uncertain : FiringStage
deriving DecidableEq, Repr

/-- The record returned by `generateSchedule`. -/
structure GenerateResult where
  segments : List FiringSegment
  warnings : List String
  advice : List String
  estimatedDurationMinutes : ℤ
  timeModifier : ℚ
deriving Repr

/-- `generateSchedule` (src/services/experienceService.ts).  Segment `id`
fields (from `crypto.randomUUID()`) are omitted as in `FiringSegment`.  The
`uncertain` stage short-circuits with empty segments, the single stage-choice
warning, zero duration and `timeModifier: 1.0` (the literal in the early
return, regardless of the locally accumulated modifier). -/
def generateSchedule (type : SampleType) (stage : FiringStage) (clayWeight : ℚ) :
    GenerateResult :=
  let timeModifier0 : ℚ :=
    match type with
    | SampleType.thick => 5/4
    | SampleType.sculpture => 27/20
    | SampleType.large_flat => 11/10
    | SampleType.thin => 9/10
    | SampleType.standard => 1
  let advice0 : List String :=
    match type with
    | SampleType.thick => ["📦 選擇【厚胎】：升溫速率會自動設定較低。"]
    | SampleType.sculpture => ["🗿 選擇【複雜雕塑】：已優化 200°C 以下和 573°C 附近的速率。"]
    | SampleType.large_flat => ["🍽️ 選擇【大盤/平板】：573°C 附近已放緩，請注意裝窯平整。"]
    | SampleType.thin => ["✨ 選擇【薄胎】：排程已稍微加快。"]
    | SampleType.standard => []
  let timeModifier : ℚ := if clayWeight > 5 then timeModifier0 + 1/10 else timeModifier0
  let advice1 : List String :=
    if clayWeight > 5 then advice0 ++ ["⚖️ 總重超過 5kg，熱負載較大，排程時間額外增加約 10%。"]
    else advice0
  if stage = FiringStage.uncertain then
    { segments := [], warnings := ["⚠️ 請選擇【素燒】或【釉燒】以獲得最佳建議排程。"],
      advice := advice1, estimatedDurationMinutes := 0, timeModifier := 1 }
  else
    let peakTemp : ℚ := if stage = FiringStage.bisque then 800 else 1240
    let peakHoldTime : ℚ :=
      if stage = FiringStage.bisque then 10
      else if type = SampleType.large_flat ∨ type = SampleType.thick then 30 else 20
    let lowRampRate : ℚ :=
      if stage = FiringStage.bisque then
        (if type = SampleType.thick ∨ type = SampleType.sculpture then 60 else 100)
      else 120
    let midRampRate : ℚ :=
      if stage = FiringStage.bisque then
        (if type = SampleType.thick ∨ type = SampleType.sculpture
            ∨ type = SampleType.large_flat then 100 else 150)
      else (if type = SampleType.large_flat then 100 else 150)
    let mainRampRate : ℚ := if stage = FiringStage.bisque then 180 else 220
    let coolRate : ℚ := if stage = FiringStage.bisque then -200 else -100
    let advice2 : List String := advice1 ++
      (if stage = FiringStage.bisque then ["🔥 素燒模式：目標 800°C，已加入低溫慢速區段。"]
       else ["✨ 釉燒模式：目標 1240°C，已設定 900°C 控溫冷卻段。"])
    let coolToTemp : ℚ :=
      if stage = FiringStage.glaze ∧ peakTemp > 1200 then 900 else 700
    let segments : List FiringSegment :=
      [ { type := SegType.ramp, rate := some lowRampRate, targetTemp := 120 } ]
      ++ (if type = SampleType.thick ∨ type = SampleType.sculpture then
            [ { type := SegType.hold, targetTemp := 120, holdTime := some 60 } ]
          else [])
      ++ [ { type := SegType.ramp, rate := some midRampRate, targetTemp := 600 },
           { type := SegType.ramp, rate := some mainRampRate, targetTemp := peakTemp } ]
      ++ (if peakHoldTime > 0 then
            [ { type := SegType.hold, targetTemp := peakTemp, holdTime := some peakHoldTime } ]
          else [])
      ++ [ { type := SegType.ramp, rate := some coolRate, targetTemp := coolToTemp },
           { type := SegType.ramp, rate := some (-9999), targetTemp := 25 } ]
    { segments := segments, warnings := [],
      advice := advice2,
      estimatedDurationMinutes :=
        jsRound ((calculateTheoreticalDuration segments : ℚ) * timeModifier),
      timeModifier := timeModifier }

/-- C9: for every sample type and clay weight, `generateSchedule` with stage
`'uncertain'` returns the sentinel result — empty segments, a non-empty
warnings list, zero estimated duration and timeModifier 1.0. -/
theorem C9_uncertain_stage_sentinel (type : SampleType) (clayWeight : ℚ) :
    (generateSchedule type FiringStage.uncertain clayWeight).segments = []
      ∧ (generateSchedule type FiringStage.uncertain clayWeight).warnings ≠ []
      ∧ (generateSchedule type FiringStage.uncertain clayWeight).estimatedDurationMinutes = 0
      ∧ (generateSchedule type FiringStage.uncertain clayWeight).timeModifier = 1 := by
  unfold generateSchedule
  norm_num

/-! ## JS number semantics for the calibration factor (C10)

The `ℚ` embedding's `x / 0 = 0` convention hides the IEEE special values the
real `calculateLocalCalibration` can produce: in JS, `actual / baseline` with a
zero baseline is `±Infinity` (filtered out, since `Infinity > 1.5` and
`-Infinity < 0.5` are true) or — when `actual` is also 0 — `NaN`, which fails
both filter comparisons, is KEPT, and poisons `totalWeightedRatio` so the
returned factor is `NaN`.  `JSNum` models a JS number as a finite rational,
`±Infinity`, or `NaN`, with exactly the operations this code path performs. -/

/-- A JS number: finite value, positive or negative infinity, or NaN. -/
inductive JSNum where
  | num : ℚ → JSNum
  | posInf : JSNum
  | negInf : JSNum
  | nan : JSNum
deriving DecidableEq, Repr

/-- JS division of two finite numbers (divisor zero is positive zero: the
durations in a `FiringLog` are plain data values, never `-0`). -/
def jsDiv (a b : ℚ) : JSNum :=
  if b ≠ 0 then JSNum.num (a / b)
  else if a > 0 then JSNum.posInf
  else if a < 0 then JSNum.negInf
  else JSNum.nan

/-- JS addition (`NaN` propagates; opposite infinities give `NaN`). -/
def jsAdd : JSNum → JSNum → JSNum
  | JSNum.num a, JSNum.num b => JSNum.num (a + b)
  | JSNum.nan, _ => JSNum.nan
  | _, JSNum.nan => JSNum.nan
  | JSNum.posInf, JSNum.negInf => JSNum.nan
  | JSNum.negInf, JSNum.posInf => JSNum.nan
  | JSNum.posInf, _ => JSNum.posInf
  | _, JSNum.posInf => JSNum.posInf
  | JSNum.negInf, _ => JSNum.negInf
  | _, JSNum.negInf => JSNum.negInf

/-- JS multiplication by a finite number (the weight `1.6^index`). -/
def jsMulQ (x : JSNum) (w : ℚ) : JSNum :=
  match x with
  | JSNum.num a => JSNum.num (a * w)
  | JSNum.nan => JSNum.nan
  | JSNum.posInf => if w > 0 then JSNum.posInf else if w < 0 then JSNum.negInf else JSNum.nan
  | JSNum.negInf => if w > 0 then JSNum.negInf else if w < 0 then JSNum.posInf else JSNum.nan

/-- JS division by a finite number (the total weight; division by positive
zero sends infinities to themselves). -/
def jsDivQ (x : JSNum) (w : ℚ) : JSNum :=
  match x with
  | JSNum.num a => jsDiv a w
  | JSNum.nan => JSNum.nan
  | JSNum.posInf => if w < 0 then JSNum.negInf else JSNum.posInf
  | JSNum.negInf => if w < 0 then JSNum.posInf else JSNum.negInf

/-- JS comparison `x > c` against a finite constant: false for `NaN`. -/
def jsGtQ (x : JSNum) (c : ℚ) : Bool :=
  match x with
  | JSNum.num a => decide (a > c)
  | JSNum.posInf => true
  | JSNum.negInf => false
  | JSNum.nan => false

/-- JS comparison `x < c` against a finite constant: false for `NaN`. -/
def jsLtQ (x : JSNum) (c : ℚ) : Bool :=
  match x with
  | JSNum.num a => decide (a < c)
  | JSNum.posInf => false
  | JSNum.negInf => true
  | JSNum.nan => false

/-- The JS test `lo <= x && x <= hi`: false for `NaN` and infinities. -/
def jsInClosedInterval (lo hi : ℚ) (x : JSNum) : Prop :=
  match x with
  | JSNum.num a => lo ≤ a ∧ a ≤ hi
  | _ => False

/-- Per-log ratio under JS number semantics: same branch structure as
`logRatio`, but the division keeps the `±Infinity`/`NaN` outcomes. -/
def jsLogRatio (log : FiringLog) : JSNum :=
  match log.theoreticalDuration with
  | some t =>
      if 0 < t then jsDiv log.actualDuration t
      else jsDiv log.actualDuration log.predictedDuration
  | none => jsDiv log.actualDuration log.predictedDuration

/-- The `forEach` body under JS number semantics: the outlier test is
`ratio > 1.5 || ratio < 0.5` with JS comparisons, so a `NaN` ratio fails both
and is kept, poisoning `totalWeightedRatio` through `jsAdd`/`jsMulQ`. -/
def jsCalibStep (st : JSNum × ℚ) (p : ℕ × FiringLog) : JSNum × ℚ :=
  let ratio := jsLogRatio p.2
  if jsGtQ ratio (3/2) || jsLtQ ratio (1/2) then st
  else (jsAdd st.1 (jsMulQ ratio ((8/5) ^ p.1)), st.2 + (8/5) ^ p.1)

/-- The accumulators after the loop, under JS number semantics.  The weights
added to `totalWeight` are always the finite `1.6^index`, so it stays a plain
rational. -/
def jsCalibSums (valid : List FiringLog) : JSNum × ℚ :=
  valid.enum.foldl jsCalibStep (JSNum.num 0, 0)

/-- `Number(x.toFixed(3))` under JS semantics: `NaN` and infinities pass
through (`Number("NaN") = NaN`, `Number("Infinity") = Infinity`). -/
def jsRound3 : JSNum → JSNum
  | JSNum.num a => JSNum.num (round3 a)
  | x => x

/-- The factor returned by `calculateLocalCalibration` under JS number
semantics: identical branch structure, with the weighted average and rounding
performed on `JSNum`.  (The advice string is unaffected by this refinement and
is not duplicated here.) -/
def jsCalibrationFactor (history : List FiringLog) : JSNum :=
  if history = [] then JSNum.num 1
  else if validLogs history = [] then JSNum.num 1
  else if (jsCalibSums (validLogs history)).2 = 0 then JSNum.num 1
  else
    jsRound3 (jsDivQ (jsCalibSums (validLogs history)).1 (jsCalibSums (validLogs history)).2)

theorem jsDiv_cases (a b : ℚ) :
    jsDiv a b = JSNum.num (a / b)
      ∨ ((jsDiv a b = JSNum.posInf ∨ jsDiv a b = JSNum.negInf) ∧ a / b = 0)
      ∨ jsDiv a b = JSNum.nan := by
  unfold jsDiv
  by_cases hb : b ≠ 0
  · left
    rw [if_pos hb]
  · push_neg at hb
    subst hb
    rcases lt_trichotomy a 0 with ha | ha | ha
    · right; left
      refine ⟨Or.inr ?_, div_zero a⟩
      rw [if_neg (by simp), if_neg (by simpa using not_lt.mpr (le_of_lt ha)), if_pos ha]
    · subst ha
      right; right
      rw [if_neg (by simp), if_neg (by norm_num), if_neg (by norm_num)]
    · right; left
      refine ⟨Or.inl ?_, div_zero a⟩
      rw [if_neg (by simp), if_pos ha]

theorem jsLogRatio_cases (log : FiringLog) :
    jsLogRatio log = JSNum.num (logRatio log)
      ∨ ((jsLogRatio log = JSNum.posInf ∨ jsLogRatio log = JSNum.negInf) ∧ logRatio log = 0)
      ∨ jsLogRatio log = JSNum.nan := by
  unfold jsLogRatio logRatio
  rcases log.theoreticalDuration with _ | t
  · exact jsDiv_cases _ _
  · dsimp only
    by_cases ht : 0 < t
    · rw [if_pos ht, if_pos ht]
      exact jsDiv_cases _ _
    · rw [if_neg ht, if_neg ht]
      exact jsDiv_cases _ _

theorem jsCalibStep_bridge (R W : ℚ) (i : ℕ) (log : FiringLog)
    (hnn : jsLogRatio log ≠ JSNum.nan) :
    jsCalibStep (JSNum.num R, W) (i, log)
      = (JSNum.num (calibStep (R, W) (i, log)).1, (calibStep (R, W) (i, log)).2) := by
  rcases jsLogRatio_cases log with hfin | ⟨hinf, hzero⟩ | hnan
  · by_cases hout : logRatio log > 3/2 ∨ logRatio log < 1/2
    · have hb : (jsGtQ (jsLogRatio log) (3/2) || jsLtQ (jsLogRatio log) (1/2)) = true := by
        rw [hfin]
        simp only [jsGtQ, jsLtQ, Bool.or_eq_true, decide_eq_true_eq]
        exact hout
      simp only [jsCalibStep]
      rw [if_pos hb, calibStep_skip _ _ _ hout]
    · push_neg at hout
      have hb : (jsGtQ (jsLogRatio log) (3/2) || jsLtQ (jsLogRatio log) (1/2)) = false := by
        rw [hfin]
        simp only [jsGtQ, jsLtQ, Bool.or_eq_false_iff, decide_eq_false_iff_not]
        exact ⟨not_lt.mpr hout.1, not_lt.mpr hout.2⟩
      simp only [jsCalibStep]
      rw [if_neg (by rw [hb]; simp),
        calibStep_keep _ _ _ (not_lt.mpr hout.1) (not_lt.mpr hout.2), hfin]
      rfl
  · have hsk : logRatio log > 3/2 ∨ logRatio log < 1/2 := Or.inr (by rw [hzero]; norm_num)
    have hb : (jsGtQ (jsLogRatio log) (3/2) || jsLtQ (jsLogRatio log) (1/2)) = true := by
      rcases hinf with h | h <;> rw [h] <;> rfl
    simp only [jsCalibStep]
    rw [if_pos hb, calibStep_skip _ _ _ hsk]
  · exact absurd hnan hnn

theorem jsCalibSums_bridge (l : List (ℕ × FiringLog)) :
    ∀ R W : ℚ, (∀ p ∈ l, jsLogRatio p.2 ≠ JSNum.nan) →
      l.foldl jsCalibStep (JSNum.num R, W)
        = (JSNum.num (l.foldl calibStep (R, W)).1, (l.foldl calibStep (R, W)).2) := by
  induction l with
  | nil => intro R W _; rfl
  | cons p l ih =>
      intro R W hnn
      rw [List.foldl_cons, List.foldl_cons,
        show jsCalibStep (JSNum.num R, W) p = jsCalibStep (JSNum.num R, W) (p.1, p.2) from rfl,
        jsCalibStep_bridge R W p.1 p.2 (hnn p (List.mem_cons_self _ _))]
      have hrec := ih (calibStep (R, W) (p.1, p.2)).1 (calibStep (R, W) (p.1, p.2)).2
        (fun q hq => hnn q (List.mem_cons_of_mem _ hq))
      simpa using hrec

/-- A legacy-format log of a zero-minute aborted-but-valid firing: valid
outcome, `actualDuration = 0`, no `theoreticalDuration`, `predictedDuration = 0`
— its ratio is the JS `0/0 = NaN`. -/
def nanLog : FiringLog :=
  { date := 0, predictedDuration := 0, theoreticalDuration := none,
    actualDuration := 0, outcome := Outcome.perfect }

/-- C10 counterexample: `nanLog` survives the outcome filter, its ratio is the
JS `0/0 = NaN`, which fails both outlier comparisons and is therefore kept with
weight 1, so the program returns factor `NaN` — not in [0.5, 1.5] (the JS test
`0.5 <= factor && factor <= 1.5` is false for `NaN`). -/
theorem C10_counterexample_nan_factor :
    jsCalibrationFactor [nanLog] = JSNum.nan
      ∧ ¬ jsInClosedInterval (1/2) (3/2) (jsCalibrationFactor [nanLog]) := by
  have hvl : validLogs [nanLog] = [nanLog] := by
    simp [validLogs, nanLog]
  have hratio : jsLogRatio nanLog = JSNum.nan := by
    simp [jsLogRatio, jsDiv, nanLog]
  have hsums : jsCalibSums [nanLog] = (JSNum.nan, 1) := by
    unfold jsCalibSums
    rw [show ([nanLog] : List FiringLog).enum = [(0, nanLog)] from rfl,
      List.foldl_cons, List.foldl_nil]
    simp only [jsCalibStep, hratio]
    norm_num [jsGtQ, jsLtQ, jsAdd, jsMulQ]
  have h : jsCalibrationFactor [nanLog] = JSNum.nan := by
    unfold jsCalibrationFactor
    rw [if_neg (by simp), hvl, if_neg (by simp), hsums,
      if_neg (by simp : ¬ ((JSNum.nan, (1 : ℚ)).2 = 0))]
    rfl
  exact ⟨h, by rw [h]; simp [jsInClosedInterval]⟩

/-- C10 (amended): the [0.5, 1.5] bound holds for every log list in which no
log's ratio computation hits the JS `0/0 = NaN` path (a `NaN` ratio passes the
outlier filter and poisons the factor to `NaN`); under that hypothesis the
JS-semantics factor coincides with the rational model's factor
(`±Infinity` ratios are genuinely filtered out, matching the rational model's
treatment of zero-baseline logs) and lies in the closed interval. -/
theorem C10_factor_bounds_no_nan (history : List FiringLog)
    (hnn : ∀ log ∈ history, jsLogRatio log ≠ JSNum.nan) :
    jsCalibrationFactor history = JSNum.num ((calculateLocalCalibration history).factor)
      ∧ jsInClosedInterval (1/2) (3/2) (jsCalibrationFactor history) := by
  have hmem : ∀ p ∈ (validLogs history).enum, jsLogRatio p.2 ≠ JSNum.nan := by
    intro p hp
    apply hnn
    rcases p with ⟨i, a⟩
    rw [List.mk_mem_enum_iff_get?] at hp
    have h1 : a ∈ validLogs history := List.get?_mem hp
    have h2 : a ∈ history.filter
        (fun log => log.outcome ≠ Outcome.error ∧ log.outcome ≠ Outcome.failure) :=
      (List.perm_insertionSort dateLe _).mem_iff.mp h1
    exact List.mem_of_mem_filter h2
  have hbridge : jsCalibSums (validLogs history)
      = (JSNum.num (calibSums (validLogs history)).1, (calibSums (validLogs history)).2) :=
    jsCalibSums_bridge _ 0 0 hmem
  have hbounds := calibFactor_bounds_rat history
  have heq : jsCalibrationFactor history
      = JSNum.num ((calculateLocalCalibration history).factor) := by
    unfold jsCalibrationFactor calculateLocalCalibration
    by_cases h1 : history = []
    · rw [if_pos h1, if_pos h1]
    · by_cases h2 : validLogs history = []
      · rw [if_neg h1, if_neg h1, if_pos h2, if_pos h2]
      · by_cases h3 : (calibSums (validLogs history)).2 = 0
        · have h3x : (JSNum.num (calibSums (validLogs history)).1,
              (calibSums (validLogs history)).2).2 = 0 := h3
          rw [if_neg h1, if_neg h1, if_neg h2, if_neg h2, hbridge, if_pos h3x, if_pos h3]
        · have h3x : ¬ (JSNum.num (calibSums (validLogs history)).1,
              (calibSums (validLogs history)).2).2 = 0 := h3
          rw [if_neg h1, if_neg h1, if_neg h2, if_neg h2, hbridge, if_neg h3x, if_neg h3]
          simp only [jsDivQ, jsDiv]
          rw [if_pos h3]
          simp only [jsRound3]
  refine ⟨heq, ?_⟩
  rw [heq]
  exact ⟨hbounds.1, hbounds.2⟩

/-- C10 witness: a one-log history with ratio 1.0 — its ratio is the finite JS
number 1, not `NaN`, so the JS-semantics factor is the rational model's factor
and lies in [0.5, 1.5]. -/
theorem C10_factor_bounds_no_nan_witness :
    jsCalibrationFactor [cleanLog 0 1]
        = JSNum.num ((calculateLocalCalibration [cleanLog 0 1]).factor)
      ∧ jsInClosedInterval (1/2) (3/2) (jsCalibrationFactor [cleanLog 0 1]) :=
  C10_factor_bounds_no_nan [cleanLog 0 1] (by
    intro log hl
    rw [List.mem_singleton] at hl
    subst hl
    simp [jsLogRatio, jsDiv, cleanLog])

end KilnMaster
